import Mathlib

/-!
Shallow embedding of the compliance engine of
`esbuild-license-compliance-plugin` (`src/lib.ts`): license-expression
parsing, allow/deny policy evaluation, glob-based ignore matching and the
violation aggregator, together with theorems settling the specification
claims about them.

Strings are modelled by Lean `String` (a list of characters); JavaScript
string builtins (`split` on the regex, `trim`, `toLowerCase`, `includes`)
are embedded character by character.  `toLowerCase` is modelled by
`Char.toLower`, faithful on the ASCII identifiers the program handles;
the whitespace class `\s` of the split regex and of `trim` is modelled by
the ASCII whitespace characters.
-/

/-- Whitespace test modelling the JavaScript `\s` class (and `trim`),
restricted to the ASCII whitespace characters: space, tab, line feed,
carriage return, vertical tab and form feed. -/
def isJsWS (c : Char) : Bool :=
  c == ' ' || c == '\t' || c == '\n' || c == '\r' || c.val == 11 || c.val == 12

/-- Model of JavaScript `String.prototype.trim`: drop leading and trailing
whitespace from a list of characters. -/
def trimChars (l : List Char) : List Char :=
  ((l.dropWhile isJsWS).reverse.dropWhile isJsWS).reverse

/-- Attempt to match the separator regex `\s+(?:OR)\s+` (case-insensitive)
at the head of the character list; on success return the characters that
follow the (greedy) match.  Because `\s+` backtracking can never move the
`OR` onto a whitespace character, the regex matches at a position exactly
when the maximal whitespace run starting there is followed by `O`/`o`,
`R`/`r` and at least one further whitespace character. -/
def matchOrSep : List Char → Option (List Char)
  | [] => none
  | c :: cs =>
    if isJsWS c then
      match cs.dropWhile isJsWS with
      | o :: r :: w :: t =>
        if (o == 'O' || o == 'o') && (r == 'R' || r == 'r') && isJsWS w then
          some (t.dropWhile isJsWS)
        else
          none
      | _ => none
    else
      none

/-- Leftmost match of the separator regex in a character list: returns the
segment before the match and the characters after it, or `none` when the
regex matches nowhere (the behaviour of `String.prototype.split`). -/
def findSep : List Char → Option (List Char × List Char)
  | [] => none
  | c :: cs =>
    match matchOrSep (c :: cs) with
    | some rest => some ([], rest)
    | none =>
      match findSep cs with
      | some (pre, rest) => some (c :: pre, rest)
      | none => none

/-- Fuel-indexed worker for splitting on the separator regex; the fuel is
always instantiated with the length of the input, which bounds the number
of matches. -/
def splitORAux : Nat → List Char → List (List Char)
  | 0, cs => [cs]
  | fuel + 1, cs =>
    match findSep cs with
    | none => [cs]
    | some (pre, rest) => pre :: splitORAux fuel rest

/-- Model of `licenseExpression.split(/\s+(?:OR)\s+/i)`. -/
def splitOR (cs : List Char) : List (List Char) :=
  splitORAux cs.length cs

/-- Model of `parseLicenseExpression` (src/lib.ts): split the raw license
expression on the case-insensitive `OR` separator, trim every segment and
drop the empty ones. -/
def parseLicenseExpression (s : String) : List String :=
  (((splitOR s.toList).map trimChars).filter
      (fun l => decide (0 < l.length))).map (fun l => String.mk l)

/-- Model of `String.prototype.toLowerCase`, faithful on ASCII input. -/
def jsToLower (s : String) : String :=
  String.mk (s.toList.map Char.toLower)

/-- Boolean prefix test on character lists. -/
def prefixOfChars : List Char → List Char → Bool
  | [], _ => true
  | _ :: _, [] => false
  | a :: as, b :: bs => a == b && prefixOfChars as bs

/-- Boolean contiguous-substring test on character lists: the needle is a
prefix of some suffix of the haystack. -/
def infixOfChars (needle : List Char) : List Char → Bool
  | [] => prefixOfChars needle []
  | c :: cs => prefixOfChars needle (c :: cs) || infixOfChars needle cs

/-- Model of `hay.includes(needle)`: the needle occurs contiguously in the
haystack. -/
def strIncludes (hay needle : String) : Bool :=
  infixOfChars needle.toList hay.toList

/-- An ASCII apostrophe, used by the reason messages of the evaluator. -/
def squote : String :=
  String.singleton (Char.ofNat 39)

/-- The reason produced by the deny check of `isLicenseAllowed` for an
offending candidate identifier. -/
def mkDisallowedReason (l : String) : String :=
  "License " ++ squote ++ l ++ squote ++ " is not allowed"

/-- The reason produced by the allow check of `isLicenseAllowed` when no
candidate matches the allow-list. -/
def mkNotInAllowedReason (licenses : List String) : String :=
  "None of the licenses " ++ squote ++ String.intercalate ", " licenses ++
    squote ++ " are in the allowed list"

/-- Result record of `isLicenseAllowed`: a compliance flag and an optional
reason. -/
structure LicenseCheckResult where
  allowed : Bool
  reason : Option String
deriving Repr, DecidableEq

/-- The deny test applied to one candidate identifier: some disallowed
entry is contained, case-insensitively, in the candidate. -/
def denyHit (disallowed : List String) (l : String) : Bool :=
  disallowed.any (fun d => strIncludes (jsToLower l) (jsToLower d))

/-- The allow test applied to one candidate identifier: some allowed entry
is contained, case-insensitively, in the candidate. -/
def allowHit (allowed : List String) (l : String) : Bool :=
  allowed.any (fun a => strIncludes (jsToLower l) (jsToLower a))

/-- Model of `isLicenseAllowed` (src/lib.ts): parse the license expression
into candidates; return non-compliant at the first candidate containing a
disallowed entry; otherwise, when the allow-list is non-empty, require
some candidate to contain an allowed entry.  The early-returning `for`
loop of the source is rendered by `List.find?`. -/
def isLicenseAllowed (license : String) (allowed disallowed : List String) :
    LicenseCheckResult :=
  let licenses := parseLicenseExpression license
  match licenses.find? (denyHit disallowed) with
  | some l => ⟨false, some (mkDisallowedReason l)⟩
  | none =>
    if 0 < allowed.length then
      if licenses.any (allowHit allowed) then ⟨true, none⟩
      else ⟨false, some (mkNotInAllowedReason licenses)⟩
    else ⟨true, none⟩

/-- Record of a scanned package, as consumed by the compliance check
(`PackageInfo` in src/lib.ts). -/
structure PackageInfo where
  name : String
  version : String
  license : String
  path : String
deriving Repr, DecidableEq

/-- Record of one compliance violation (`LicenseViolation` in
src/lib.ts). -/
structure LicenseViolation where
  package : String
  license : String
  reason : String
deriving Repr, DecidableEq

/-- Options of the check (`LicenseComplianceOptions` in src/lib.ts); every
field is optional and defaults to the empty list when absent, mirroring
the destructuring defaults in `checkLicenseCompliance`. -/
structure LicenseComplianceOptions where
  allowed : Option (List String) := none
  disallowed : Option (List String) := none
  ignores : Option (List String) := none
deriving Repr, DecidableEq

/-- Character test modelling the regex atom `.` (no `dotAll` flag): any
character except the line terminators LF, CR, LS and PS.  The glob
translation of `isIgnored` turns `*` into `.*` and `?` into `.`, so glob
wildcards never match a line terminator. -/
def dotChar (c : Char) : Bool :=
  !(c == '\n' || c == '\r' || c.val == 0x2028 || c.val == 0x2029)

/-- All suffixes of a character list reachable by consuming a (possibly
empty) run of `.`-matchable characters from the front: the candidate
remainders after a greedy-with-backtracking `.*`. -/
def dotSuffixes : List Char → List (List Char)
  | [] => [[]]
  | c :: cs => (c :: cs) :: (if dotChar c then dotSuffixes cs else [])

/-- Model of `new RegExp("^" + translated + "$").test(name)` for an ignore
pattern, where `translated` replaces `*` by `.*` and `?` by `.`: anchored
matching with `*` matching zero or more `.`-characters, `?` exactly one,
and every other pattern character matching itself.  Faithful for patterns
whose characters are not regular-expression metacharacters; theorems about
patterns outside that fragment go through the explicit exception model
below. -/
def globMatch : List Char → List Char → Bool
  | [], cs => cs.isEmpty
  | p :: ps, cs =>
    if p == '*' then
      (dotSuffixes cs).any (fun s => globMatch ps s)
    else
      match cs with
      | [] => false
      | c :: cs2 => (if p == '?' then dotChar c else p == c) && globMatch ps cs2

/-- Model of `isIgnored` (src/lib.ts): the package name fully matches at
least one ignore pattern. -/
def isIgnored (packageName : String) (ignores : List String) : Bool :=
  ignores.any (fun pattern => globMatch pattern.toList packageName.toList)

/-- Declarative anchored glob-matching relation: a pattern matches a name
when the empty pattern matches the empty name, a literal character matches
itself, `?` consumes exactly one `.`-matchable character and `*` consumes
zero or more `.`-matchable characters. -/
inductive GlobSem : List Char → List Char → Prop
  | nil : GlobSem [] []
  | lit {c : Char} {ps cs : List Char} : c ≠ '*' → c ≠ '?' →
      GlobSem ps cs → GlobSem (c :: ps) (c :: cs)
  | one {c : Char} {ps cs : List Char} : dotChar c = true →
      GlobSem ps cs → GlobSem ('?' :: ps) (c :: cs)
  | starNil {ps cs : List Char} : GlobSem ps cs → GlobSem ('*' :: ps) cs
  | starCons {c : Char} {ps cs : List Char} : dotChar c = true →
      GlobSem ('*' :: ps) cs → GlobSem ('*' :: ps) (c :: cs)

/-- The regular-expression source built by `isIgnored` from an ignore
pattern: `^` plus the pattern with `*` replaced by `.*` and `?` by `.`
(the bracket-group replacement of the source rewrites its match to itself
and is the identity), plus `$`. -/
def globToRegexSource (pattern : String) : String :=
  String.mk ('^' ::
    ((pattern.toList.map
        (fun c => if c == '*' then ['.', '*']
                  else if c == '?' then ['.'] else [c])).flatten ++ ['$']))

/-- Scanner for group parentheses in a regular-expression source: depth
never goes negative and ends at zero. -/
def parenDepthOk : List Char → Nat → Bool
  | [], d => d == 0
  | c :: cs, d =>
    if c == '(' then parenDepthOk cs (d + 1)
    else if c == ')' then
      match d with
      | 0 => false
      | d' + 1 => parenDepthOk cs d'
    else parenDepthOk cs d

/-- Modelled from ECMAScript `new RegExp` syntax acceptance, for the
sources produced by `globToRegexSource` from patterns free of
regular-expression metacharacters other than group parentheses: an
unbalanced group parenthesis is a `SyntaxError`, everything else the
translation produces from such patterns is accepted. -/
def regexSourceOk (s : String) : Bool :=
  parenDepthOk s.toList 0

/-- Pattern characters for which the glob translation is exactly the
regular expression built by the source: everything except the
regular-expression metacharacters. -/
def globSafeChar (c : Char) : Bool :=
  !(c == '(' || c == ')' || c == '[' || c == ']' || c == '\x7b' ||
    c == '\x7d' || c == '+' || c == '\\' || c == '.' || c == '^' ||
    c == '$' || c == '|')

/-- A pattern inside the glob fragment: every character is either a glob
wildcard or a literal with no regular-expression meaning. -/
def globSafePattern (p : String) : Bool :=
  p.toList.all globSafeChar

/-- Exception-aware model of `isIgnored`: for each pattern in turn the
source first constructs the regular expression (which throws a
`SyntaxError` when the translated source is invalid) and then tests the
name, stopping at the first pattern that matches. -/
def isIgnoredE (packageName : String) : List String → Except String Bool
  | [] => .ok false
  | p :: ps =>
    if regexSourceOk (globToRegexSource p) then
      if globMatch p.toList packageName.toList then .ok true
      else isIgnoredE packageName ps
    else .error "SyntaxError"

/-- The decision `checkLicenseCompliance` takes for a single package:
skipped when ignored, skipped with a warning when its license is the
`UNKNOWN` sentinel, otherwise a violation exactly when the evaluator
returns non-compliant with a non-empty reason (the truthiness test
`!licenseCheck.allowed && licenseCheck.reason` of the source). -/
def packageViolation (allowed disallowed ignores : List String)
    (pkg : PackageInfo) : Option LicenseViolation :=
  if isIgnored pkg.name ignores then none
  else if pkg.license == "UNKNOWN" then none
  else
    match isLicenseAllowed pkg.license allowed disallowed with
    | ⟨true, _⟩ => none
    | ⟨false, none⟩ => none
    | ⟨false, some s⟩ =>
      if s == "" then none else some ⟨pkg.name, pkg.license, s⟩

/-- Accumulator loop of `checkLicenseCompliance`: iterate over the
packages in order, pushing a violation for each package the per-package
decision flags. -/
def checkAux (allowed disallowed ignores : List String) :
    List PackageInfo → List LicenseViolation → List LicenseViolation
  | [], acc => acc
  | pkg :: rest, acc =>
    match packageViolation allowed disallowed ignores pkg with
    | some v => checkAux allowed disallowed ignores rest (acc ++ [v])
    | none => checkAux allowed disallowed ignores rest acc

/-- Model of `checkLicenseCompliance` (src/lib.ts): apply the destructuring
defaults to the options and run the accumulator loop over the package
list. -/
def checkLicenseCompliance (packages : List PackageInfo)
    (options : LicenseComplianceOptions) : List LicenseViolation :=
  checkAux (options.allowed.getD []) (options.disallowed.getD [])
    (options.ignores.getD []) packages []

/-- Exception-aware accumulator loop: identical to `checkAux` except that
the ignore test may throw, which aborts the whole check. -/
def checkAuxE (allowed disallowed ignores : List String) :
    List PackageInfo → List LicenseViolation →
    Except String (List LicenseViolation)
  | [], acc => .ok acc
  | pkg :: rest, acc =>
    match isIgnoredE pkg.name ignores with
    | .error e => .error e
    | .ok true => checkAuxE allowed disallowed ignores rest acc
    | .ok false =>
      if pkg.license == "UNKNOWN" then
        checkAuxE allowed disallowed ignores rest acc
      else
        match isLicenseAllowed pkg.license allowed disallowed with
        | ⟨true, _⟩ => checkAuxE allowed disallowed ignores rest acc
        | ⟨false, none⟩ => checkAuxE allowed disallowed ignores rest acc
        | ⟨false, some s⟩ =>
          if s == "" then checkAuxE allowed disallowed ignores rest acc
          else checkAuxE allowed disallowed ignores rest
            (acc ++ [⟨pkg.name, pkg.license, s⟩])

/-- Exception-aware model of `checkLicenseCompliance`: propagates the
`SyntaxError` a malformed ignore pattern raises while iterating. -/
def checkLicenseComplianceE (packages : List PackageInfo)
    (options : LicenseComplianceOptions) :
    Except String (List LicenseViolation) :=
  checkAuxE (options.allowed.getD []) (options.disallowed.getD [])
    (options.ignores.getD []) packages []

/-- Modelled from the spec, for comparison with `isLicenseAllowed`: the
evaluator claim C2 describes, which treats the whole raw license string as
the single candidate identifier whenever parsing yields zero candidates
(spec section 4.3 step 1). -/
def isLicenseAllowedSpecFallback (license : String)
    (allowed disallowed : List String) : LicenseCheckResult :=
  let parsed := parseLicenseExpression license
  let licenses := if parsed.isEmpty then [license] else parsed
  match licenses.find? (denyHit disallowed) with
  | some l => ⟨false, some (mkDisallowedReason l)⟩
  | none =>
    if 0 < allowed.length then
      if licenses.any (allowHit allowed) then ⟨true, none⟩
      else ⟨false, some (mkNotInAllowedReason licenses)⟩
    else ⟨true, none⟩

theorem mkDisallowedReason_ne_empty (l : String) :
    (mkDisallowedReason l == "") = false := by
  rw [beq_eq_false_iff_ne]
  intro h
  have h2 := congrArg String.data h
  simp [mkDisallowedReason, squote, String.singleton, String.push] at h2

theorem mkNotInAllowedReason_ne_empty (ls : List String) :
    (mkNotInAllowedReason ls == "") = false := by
  rw [beq_eq_false_iff_ne]
  intro h
  have h2 := congrArg String.data h
  simp [mkNotInAllowedReason, squote, String.singleton, String.push] at h2

theorem checkAux_eq_filterMap (allowed disallowed ignores : List String) :
    ∀ (ps : List PackageInfo) (acc : List LicenseViolation),
      checkAux allowed disallowed ignores ps acc =
        acc ++ ps.filterMap (packageViolation allowed disallowed ignores) := by
  intro ps
  induction ps with
  | nil => intro acc; simp [checkAux]
  | cons pkg rest ih =>
    intro acc
    rw [checkAux]
    cases h : packageViolation allowed disallowed ignores pkg with
    | none => simp [ih, List.filterMap_cons, h]
    | some v => simp [ih, List.filterMap_cons, h]

theorem packageViolation_fields (allowed disallowed ignores : List String)
    (pkg : PackageInfo) (v : LicenseViolation)
    (h : packageViolation allowed disallowed ignores pkg = some v) :
    v.package = pkg.name ∧ v.license = pkg.license := by
  unfold packageViolation at h
  split at h
  case isTrue => exact absurd h (by simp)
  case isFalse =>
    split at h
    case isTrue => exact absurd h (by simp)
    case isFalse =>
      split at h
      case _ => exact absurd h (by simp)
      case _ => exact absurd h (by simp)
      case _ s =>
        split at h
        case isTrue => exact absurd h (by simp)
        case isFalse =>
          cases h
          exact ⟨rfl, rfl⟩

theorem packageViolation_of_ignored (allowed disallowed ignores : List String)
    (pkg : PackageInfo) (h : isIgnored pkg.name ignores = true) :
    packageViolation allowed disallowed ignores pkg = none := by
  simp [packageViolation, h]

theorem packageViolation_of_unknown (allowed disallowed ignores : List String)
    (pkg : PackageInfo) (h : pkg.license = "UNKNOWN") :
    packageViolation allowed disallowed ignores pkg = none := by
  simp [packageViolation, h]

/-- C9: the check returns at most one violation per input package, in the
same relative order as the packages appear in the input list (the output
is the `filterMap` of a per-package decision over the input), and every
violation's license field is the raw recorded license string of its
package (its package field being that package's name). -/
theorem c9_violation_output_shape
    (packages : List PackageInfo) (options : LicenseComplianceOptions) :
    checkLicenseCompliance packages options =
      packages.filterMap
        (packageViolation (options.allowed.getD []) (options.disallowed.getD [])
          (options.ignores.getD [])) ∧
    ∀ (pkg : PackageInfo) (v : LicenseViolation),
      packageViolation (options.allowed.getD []) (options.disallowed.getD [])
        (options.ignores.getD []) pkg = some v →
      v.package = pkg.name ∧ v.license = pkg.license := by
  constructor
  · rw [checkLicenseCompliance, checkAux_eq_filterMap]
    simp
  · intro pkg v h
    exact packageViolation_fields _ _ _ _ _ h

theorem c9_violation_output_shape_witness :
    checkLicenseCompliance
        [⟨"a", "1", "MIT", "p"⟩, ⟨"b", "1", "GPL-3.0-only", "p"⟩]
        ⟨none, some ["GPL-3.0-only"], none⟩ =
      [⟨"b", "GPL-3.0-only", mkDisallowedReason "GPL-3.0-only"⟩] ∧
    (⟨"b", "GPL-3.0-only", mkDisallowedReason "GPL-3.0-only"⟩ :
        LicenseViolation).package = "b" := by
  have h := c9_violation_output_shape
    [⟨"a", "1", "MIT", "p"⟩, ⟨"b", "1", "GPL-3.0-only", "p"⟩]
    ⟨none, some ["GPL-3.0-only"], none⟩
  refine ⟨h.1.trans (by decide), ?_⟩
  exact (h.2 ⟨"b", "1", "GPL-3.0-only", "p"⟩
    ⟨"b", "GPL-3.0-only", mkDisallowedReason "GPL-3.0-only"⟩ (by decide)).1

/-- C6: ignore dominance — a package whose name matches at least one
ignore pattern contributes nothing to the output of the check, under any
policy and wherever it sits in the input list: deleting it from the input
leaves the violations unchanged, so no violation (and no license
evaluation) is ever produced for it. -/
theorem c6_ignore_dominance
    (options : LicenseComplianceOptions) (pkg : PackageInfo)
    (before after : List PackageInfo)
    (h : isIgnored pkg.name (options.ignores.getD []) = true) :
    checkLicenseCompliance (before ++ pkg :: after) options =
      checkLicenseCompliance (before ++ after) options := by
  rw [checkLicenseCompliance, checkLicenseCompliance,
    checkAux_eq_filterMap, checkAux_eq_filterMap,
    List.filterMap_append, List.filterMap_append, List.filterMap_cons,
    packageViolation_of_ignored _ _ _ _ h]

theorem c6_ignore_dominance_witness :
    checkLicenseCompliance
        [⟨"eslint-plugin-foo", "1", "GPL-3.0-only", "p"⟩]
        ⟨none, some ["GPL-3.0-only"], some ["eslint-*"]⟩ = [] := by
  have h := c6_ignore_dominance
    ⟨none, some ["GPL-3.0-only"], some ["eslint-*"]⟩
    ⟨"eslint-plugin-foo", "1", "GPL-3.0-only", "p"⟩ [] [] (by decide)
  simpa using h

/-- C10: the unknown-license skip compares the recorded license with the
sentinel `UNKNOWN` by exact string equality: a package whose license is
exactly `UNKNOWN` contributes nothing to the output under any policy
(even one whose disallowed list contains `UNKNOWN`), while the spelling
`unknown` is not skipped and is evaluated against the policy like any
other license string. -/
theorem c10_unknown_sentinel_exact :
    (∀ (options : LicenseComplianceOptions) (pkg : PackageInfo)
       (before after : List PackageInfo),
       pkg.license = "UNKNOWN" →
       checkLicenseCompliance (before ++ pkg :: after) options =
         checkLicenseCompliance (before ++ after) options) ∧
    checkLicenseCompliance [⟨"p", "1", "unknown", "x"⟩]
        ⟨none, some ["unknown"], none⟩ =
      [⟨"p", "unknown", mkDisallowedReason "unknown"⟩] ∧
    checkLicenseCompliance [⟨"p", "1", "UNKNOWN", "x"⟩]
        ⟨none, some ["UNKNOWN"], none⟩ = [] := by
  refine ⟨?_, by decide, by decide⟩
  intro options pkg before after h
  rw [checkLicenseCompliance, checkLicenseCompliance,
    checkAux_eq_filterMap, checkAux_eq_filterMap,
    List.filterMap_append, List.filterMap_append, List.filterMap_cons,
    packageViolation_of_unknown _ _ _ _ h]

theorem c10_unknown_sentinel_exact_witness :
    checkLicenseCompliance [⟨"c", "1", "UNKNOWN", "x"⟩]
        ⟨none, some ["UNKNOWN"], none⟩ = [] := by
  have h := (c10_unknown_sentinel_exact).1 ⟨none, some ["UNKNOWN"], none⟩
    ⟨"c", "1", "UNKNOWN", "x"⟩ [] [] rfl
  simpa using h

theorem isLicenseAllowed_of_find?_deny (license : String)
    (allowed disallowed : List String) (offender : String)
    (h : (parseLicenseExpression license).find? (denyHit disallowed) =
      some offender) :
    isLicenseAllowed license allowed disallowed =
      ⟨false, some (mkDisallowedReason offender)⟩ := by
  simp only [isLicenseAllowed, h]

/-- C1: deny dominates allow — whenever some candidate produced by parsing
the license contains, case-insensitively, some entry of the disallowed
list, the evaluator returns non-compliant regardless of the allowed list,
and its reason names an offending candidate (the first one, which the
deny test flags). -/
theorem c1_deny_dominates_allow (license : String)
    (allowed disallowed : List String) (c d : String)
    (hc : c ∈ parseLicenseExpression license) (hd : d ∈ disallowed)
    (hit : strIncludes (jsToLower c) (jsToLower d) = true) :
    (isLicenseAllowed license allowed disallowed).allowed = false ∧
    ∃ offender, offender ∈ parseLicenseExpression license ∧
      denyHit disallowed offender = true ∧
      (isLicenseAllowed license allowed disallowed).reason =
        some (mkDisallowedReason offender) := by
  have hden : denyHit disallowed c = true := by
    unfold denyHit
    rw [List.any_eq_true]
    exact ⟨d, hd, hit⟩
  have hsome :
      ((parseLicenseExpression license).find? (denyHit disallowed)).isSome := by
    rw [List.find?_isSome]
    exact ⟨c, hc, hden⟩
  obtain ⟨off, hoff⟩ := Option.isSome_iff_exists.mp hsome
  rw [isLicenseAllowed_of_find?_deny license allowed disallowed off hoff]
  exact ⟨rfl, off, List.mem_of_find?_eq_some hoff, List.find?_some hoff, rfl⟩

theorem c1_deny_dominates_allow_witness :
    (isLicenseAllowed "MIT OR GPL-3.0-only" ["MIT"] ["GPL-3.0-only"]).allowed =
      false ∧
    ∃ offender, offender ∈ parseLicenseExpression "MIT OR GPL-3.0-only" ∧
      denyHit ["GPL-3.0-only"] offender = true ∧
      (isLicenseAllowed "MIT OR GPL-3.0-only" ["MIT"] ["GPL-3.0-only"]).reason =
        some (mkDisallowedReason offender) :=
  c1_deny_dominates_allow "MIT OR GPL-3.0-only" ["MIT"] ["GPL-3.0-only"]
    "GPL-3.0-only" "GPL-3.0-only" (by decide) (by decide) (by decide)

theorem c2_unparseable_fallback_counterexample :
    parseLicenseExpression " OR " = [] ∧
    (isLicenseAllowedSpecFallback " OR " [] ["OR"]).allowed = false ∧
    (isLicenseAllowed " OR " [] ["OR"]).allowed = true :=
  ⟨by decide, by decide, by decide⟩

/-- C2 (amended): when expression parsing yields zero candidates the
evaluator has no fallback — it runs on the empty candidate list, so the
deny check vacuously passes whatever the raw string or the disallowed
list, and the result is compliant when the allowed list is empty and
non-compliant (with the reason listing no candidates) when it is
non-empty.  The raw string is never used as a candidate. -/
theorem c2_unparseable_fallback_amended (license : String)
    (allowed disallowed : List String)
    (h : parseLicenseExpression license = []) :
    isLicenseAllowed license allowed disallowed =
      if allowed.isEmpty then ⟨true, none⟩
      else ⟨false, some (mkNotInAllowedReason [])⟩ := by
  unfold isLicenseAllowed
  rw [h]
  cases allowed <;> simp [List.find?]

theorem c2_unparseable_fallback_amended_witness :
    isLicenseAllowed " OR " ["MIT"] ["GPL-3.0-only"] =
      if (["MIT"] : List String).isEmpty then ⟨true, none⟩
      else ⟨false, some (mkNotInAllowedReason [])⟩ :=
  c2_unparseable_fallback_amended " OR " ["MIT"] ["GPL-3.0-only"] (by decide)

theorem c3_substring_direction_counterexample :
    parseLicenseExpression "GPL" = ["GPL"] ∧
    strIncludes (jsToLower "GPL-3.0-only") (jsToLower "GPL") = true ∧
    checkLicenseCompliance [⟨"b", "1", "GPL", "p"⟩]
      ⟨none, some ["GPL-3.0-only"], none⟩ = [] := by
  refine ⟨by decide, by decide, by decide⟩

/-- C3 (amended): for every package that is not ignored and whose recorded
license is not the `UNKNOWN` sentinel, if some candidate parsed from its
license string case-insensitively contains some entry of the disallowed
list (the direction the code checks: the candidate is the haystack and the
disallowed entry the needle), then the check produces a violation for that
package, regardless of the contents of the allowed list. -/
theorem c3_deny_substring_amended
    (packages : List PackageInfo) (options : LicenseComplianceOptions)
    (pkg : PackageInfo) (c d : String)
    (hmem : pkg ∈ packages)
    (hig : isIgnored pkg.name (options.ignores.getD []) = false)
    (hunk : pkg.license ≠ "UNKNOWN")
    (hc : c ∈ parseLicenseExpression pkg.license)
    (hd : d ∈ options.disallowed.getD [])
    (hit : strIncludes (jsToLower c) (jsToLower d) = true) :
    ∃ v ∈ checkLicenseCompliance packages options,
      v.package = pkg.name ∧ v.license = pkg.license := by
  have hden : denyHit (options.disallowed.getD []) c = true := by
    unfold denyHit
    rw [List.any_eq_true]
    exact ⟨d, hd, hit⟩
  have hsome :
      ((parseLicenseExpression pkg.license).find?
        (denyHit (options.disallowed.getD []))).isSome := by
    rw [List.find?_isSome]
    exact ⟨c, hc, hden⟩
  obtain ⟨off, hoff⟩ := Option.isSome_iff_exists.mp hsome
  have heval := isLicenseAllowed_of_find?_deny pkg.license
    (options.allowed.getD []) (options.disallowed.getD []) off hoff
  have hpv : packageViolation (options.allowed.getD [])
      (options.disallowed.getD []) (options.ignores.getD []) pkg =
      some ⟨pkg.name, pkg.license, mkDisallowedReason off⟩ := by
    unfold packageViolation
    rw [hig, heval]
    simp [beq_eq_false_iff_ne.mpr hunk, mkDisallowedReason_ne_empty]
  refine ⟨⟨pkg.name, pkg.license, mkDisallowedReason off⟩, ?_, rfl, rfl⟩
  rw [checkLicenseCompliance, checkAux_eq_filterMap]
  simp only [List.nil_append]
  exact List.mem_filterMap.mpr ⟨pkg, hmem, hpv⟩

theorem c3_deny_substring_amended_witness :
    ∃ v ∈ checkLicenseCompliance [⟨"b", "1", "GPL-3.0-only", "p"⟩]
        ⟨some ["MIT"], some ["GPL-3.0-only"], none⟩,
      v.package = "b" ∧ v.license = "GPL-3.0-only" :=
  c3_deny_substring_amended [⟨"b", "1", "GPL-3.0-only", "p"⟩]
    ⟨some ["MIT"], some ["GPL-3.0-only"], none⟩
    ⟨"b", "1", "GPL-3.0-only", "p"⟩ "GPL-3.0-only" "GPL-3.0-only"
    (by decide) (by decide) (by decide) (by decide) (by decide) (by decide)

theorem find?_deny_eq_none (license : String) (disallowed : List String)
    (h : ∀ c ∈ parseLicenseExpression license, denyHit disallowed c = false) :
    (parseLicenseExpression license).find? (denyHit disallowed) = none := by
  rw [List.find?_eq_none]
  intro x hx
  simp [h x hx]

theorem isLicenseAllowed_empty_policy (license : String) :
    isLicenseAllowed license [] [] = ⟨true, none⟩ := by
  have h0 : (parseLicenseExpression license).find? (denyHit []) = none :=
    find?_deny_eq_none license [] (fun c _ => by simp [denyHit])
  simp [isLicenseAllowed, h0]

theorem c8_allow_gating_counterexample :
    (isLicenseAllowed "MIT" ["MIT"] ["MIT"]).allowed = false ∧
    (parseLicenseExpression "MIT").any (allowHit ["MIT"]) = true :=
  ⟨by decide, by decide⟩

/-- C8 (amended): when the allowed list is empty the allow check is
skipped entirely, so anything the deny check does not flag is compliant;
when the allowed list is non-empty and no candidate matches the deny list,
the evaluator returns non-compliant exactly when no candidate identifier
case-insensitively contains any entry of the allowed list, with a reason
listing all candidates; and with both lists empty the check returns no
violation for any package list. -/
theorem c8_allow_gating_amended :
    (∀ (license : String) (disallowed : List String),
       (∀ c ∈ parseLicenseExpression license, denyHit disallowed c = false) →
       isLicenseAllowed license [] disallowed = ⟨true, none⟩) ∧
    (∀ (license : String) (allowed disallowed : List String),
       allowed ≠ [] →
       (∀ c ∈ parseLicenseExpression license, denyHit disallowed c = false) →
       isLicenseAllowed license allowed disallowed =
         (if (parseLicenseExpression license).any (allowHit allowed) then
            ⟨true, none⟩
          else
            ⟨false, some (mkNotInAllowedReason (parseLicenseExpression license))⟩)) ∧
    (∀ (packages : List PackageInfo) (options : LicenseComplianceOptions),
       options.allowed.getD [] = [] → options.disallowed.getD [] = [] →
       checkLicenseCompliance packages options = []) := by
  refine ⟨?_, ?_, ?_⟩
  · intro license disallowed h
    have h0 := find?_deny_eq_none license disallowed h
    simp [isLicenseAllowed, h0]
  · intro license allowed disallowed hne h
    have h0 := find?_deny_eq_none license disallowed h
    have hlen : 0 < allowed.length := List.length_pos.mpr hne
    simp [isLicenseAllowed, h0, hlen]
  · intro packages options ha hd
    rw [checkLicenseCompliance, checkAux_eq_filterMap, ha, hd]
    simp only [List.nil_append]
    rw [List.filterMap_eq_nil_iff]
    intro pkg _
    unfold packageViolation
    rw [isLicenseAllowed_empty_policy]
    split
    · rfl
    · split
      · rfl
      · rfl

theorem c8_allow_gating_amended_witness :
    isLicenseAllowed "MIT" ["Apache-2.0"] [] =
      (if (parseLicenseExpression "MIT").any (allowHit ["Apache-2.0"]) then
         (⟨true, none⟩ : LicenseCheckResult)
       else
         ⟨false, some (mkNotInAllowedReason (parseLicenseExpression "MIT"))⟩) ∧
    checkLicenseCompliance [⟨"x", "1", "MIT", "p"⟩] ⟨none, none, none⟩ = [] :=
  ⟨c8_allow_gating_amended.2.1 "MIT" ["Apache-2.0"] [] (by decide) (by decide),
   c8_allow_gating_amended.2.2 [⟨"x", "1", "MIT", "p"⟩] ⟨none, none, none⟩
     rfl rfl⟩

theorem parenDepthOk_of_no_parens :
    ∀ (l : List Char) (d : Nat), (∀ c ∈ l, c ≠ '(' ∧ c ≠ ')') →
      parenDepthOk l d = (d == 0) := by
  intro l
  induction l with
  | nil => intro d _; rfl
  | cons c cs ih =>
    intro d h
    have hc := h c (List.mem_cons_self c cs)
    have h1 : (c == '(') = false := by simp [hc.1]
    have h2 : (c == ')') = false := by simp [hc.2]
    simp only [parenDepthOk, h1, h2, Bool.false_eq_true, if_false]
    exact ih d (fun x hx => h x (List.mem_cons_of_mem c hx))

theorem regexSourceOk_of_globSafe (p : String)
    (h : globSafePattern p = true) :
    regexSourceOk (globToRegexSource p) = true := by
  rw [regexSourceOk, globToRegexSource]
  show parenDepthOk ('^' :: _) 0 = true
  rw [parenDepthOk_of_no_parens]
  · rfl
  · intro c hc
    rcases List.mem_cons.mp hc with hcar | hbody
    · subst hcar; exact ⟨by decide, by decide⟩
    rcases List.mem_append.mp hbody with hflat | hdollar
    · obtain ⟨s, hs, hcs⟩ := List.mem_flatten.mp hflat
      obtain ⟨c0, hc0, hfc0⟩ := List.mem_map.mp hs
      have hsafe : globSafeChar c0 = true := by
        rw [globSafePattern, List.all_eq_true] at h
        exact h c0 hc0
      subst hfc0
      by_cases h1 : c0 == '*'
      · simp only [h1, if_true] at hcs
        rcases List.mem_cons.mp hcs with h2 | h2
        · subst h2; exact ⟨by decide, by decide⟩
        · simp at h2; subst h2; exact ⟨by decide, by decide⟩
      · simp only [h1, if_false] at hcs
        by_cases h2 : c0 == '?'
        · simp only [h2, if_true] at hcs
          simp at hcs; subst hcs; exact ⟨by decide, by decide⟩
        · simp only [h2, if_false] at hcs
          simp at hcs; subst hcs
          simp only [globSafeChar, Bool.not_eq_eq_eq_not, Bool.not_true,
            Bool.or_eq_false_iff, beq_eq_false_iff_ne] at hsafe
          exact ⟨hsafe.1.1.1.1.1.1.1.1.1.1.1, hsafe.1.1.1.1.1.1.1.1.1.1.2⟩
    · simp at hdollar; subst hdollar; exact ⟨by decide, by decide⟩

theorem isIgnoredE_of_safe (name : String) :
    ∀ (ps : List String), ps.all globSafePattern = true →
      isIgnoredE name ps = .ok (isIgnored name ps) := by
  intro ps
  induction ps with
  | nil => intro _; rfl
  | cons p rest ih =>
    intro hsafe
    rw [List.all_cons, Bool.and_eq_true] at hsafe
    rw [isIgnoredE, if_pos (by rw [regexSourceOk_of_globSafe p hsafe.1])]
    cases hm : globMatch p.toList name.toList with
    | true =>
      have hm2 : globMatch p.data name.data = true := hm
      simp [isIgnored, hm2]
    | false =>
      have hm2 : globMatch p.data name.data = false := hm
      rw [ih hsafe.2]
      simp [isIgnored, hm2]

theorem checkAuxE_eq_ok (allowed disallowed ignores : List String)
    (hsafe : ignores.all globSafePattern = true) :
    ∀ (ps : List PackageInfo) (acc : List LicenseViolation),
      checkAuxE allowed disallowed ignores ps acc =
        .ok (checkAux allowed disallowed ignores ps acc) := by
  intro ps
  induction ps with
  | nil => intro acc; rfl
  | cons pkg rest ih =>
    intro acc
    rw [checkAuxE, checkAux, isIgnoredE_of_safe pkg.name ignores hsafe]
    unfold packageViolation
    cases hig : isIgnored pkg.name ignores with
    | true => simpa using ih acc
    | false =>
      cases hu : (pkg.license == "UNKNOWN") with
      | true => simpa using ih acc
      | false =>
        cases heval : isLicenseAllowed pkg.license allowed disallowed with
        | mk b r =>
          cases b with
          | true => simpa using ih acc
          | false =>
            cases r with
            | none => simpa using ih acc
            | some s =>
              by_cases hs : s = ""
              · simpa [hs] using ih acc
              · simpa [hs] using ih (acc ++ [⟨pkg.name, pkg.license, s⟩])

theorem c5_totality_counterexample :
    checkLicenseComplianceE [⟨"left-pad", "1.0.0", "MIT", "/n"⟩]
        ⟨none, none, some ["("]⟩ = .error "SyntaxError" ∧
    globToRegexSource "(" = "^($" ∧
    regexSourceOk "^($" = false :=
  ⟨rfl, by decide, by decide⟩

/-- C5 (amended): the check never throws for any package list and any
options whose ignore patterns stay inside the glob fragment (no
regular-expression metacharacters beyond `*` and `?`): on such inputs the
exception-aware model returns exactly the violations of the pure check.
Empty or absent policy arrays are valid.  There is no fail-fast policy
validation: the one runtime failure mode is an ignore pattern whose
translation is an invalid regular expression (such as `"("`), which raises
a `SyntaxError` while iterating over the packages. -/
theorem c5_totality_amended (packages : List PackageInfo)
    (options : LicenseComplianceOptions)
    (hsafe : (options.ignores.getD []).all globSafePattern = true) :
    checkLicenseComplianceE packages options =
      .ok (checkLicenseCompliance packages options) := by
  rw [checkLicenseComplianceE, checkLicenseCompliance,
    checkAuxE_eq_ok _ _ _ hsafe]

theorem c5_totality_amended_witness :
    checkLicenseComplianceE
        [⟨"a", "1", "MIT", "p"⟩, ⟨"@types/node", "1", "GPL-3.0-only", "p"⟩]
        ⟨some ["MIT"], some ["GPL-3.0-only"], some ["@types/*"]⟩ =
      .ok (checkLicenseCompliance
        [⟨"a", "1", "MIT", "p"⟩, ⟨"@types/node", "1", "GPL-3.0-only", "p"⟩]
        ⟨some ["MIT"], some ["GPL-3.0-only"], some ["@types/*"]⟩) :=
  c5_totality_amended
    [⟨"a", "1", "MIT", "p"⟩, ⟨"@types/node", "1", "GPL-3.0-only", "p"⟩]
    ⟨some ["MIT"], some ["GPL-3.0-only"], some ["@types/*"]⟩ (by decide)

theorem dropWhile_head_false {p : Char → Bool} {l t : List Char} {a : Char}
    (h : l.dropWhile p = a :: t) : p a = false := by
  induction l with
  | nil => simp [List.dropWhile] at h
  | cons c cs ih =>
    by_cases hc : p c
    · rw [List.dropWhile_cons_of_pos hc] at h
      exact ih h
    · rw [List.dropWhile_cons_of_neg hc] at h
      cases h
      exact Bool.of_not_eq_true hc

theorem dropWhile_idem (p : Char → Bool) (l : List Char) :
    (l.dropWhile p).dropWhile p = l.dropWhile p := by
  cases h : l.dropWhile p with
  | nil => rfl
  | cons a t =>
    exact List.dropWhile_cons_of_neg (by simp [dropWhile_head_false h])

theorem dropWhile_of_prefix_dropWhile {p : Char → Bool} {x l : List Char}
    (h : x <+: l.dropWhile p) : x.dropWhile p = x := by
  cases x with
  | nil => rfl
  | cons a t =>
    obtain ⟨rest, hrest⟩ := h
    have : l.dropWhile p = a :: (t ++ rest) := by rw [← hrest]; rfl
    exact List.dropWhile_cons_of_neg (by simp [dropWhile_head_false this])

theorem trimChars_prefix_dropWhile (l : List Char) :
    trimChars l <+: l.dropWhile isJsWS := by
  rw [trimChars]
  have h1 : ((l.dropWhile isJsWS).reverse.dropWhile isJsWS) <:+
      (l.dropWhile isJsWS).reverse := List.dropWhile_suffix _
  have h2 := List.reverse_prefix.mpr h1
  rwa [List.reverse_reverse] at h2

theorem trimChars_isInfix (l : List Char) : trimChars l <:+: l :=
  (trimChars_prefix_dropWhile l).isInfix.trans (List.dropWhile_suffix _).isInfix

theorem trimChars_idem (l : List Char) :
    trimChars (trimChars l) = trimChars l := by
  have h1 : (trimChars l).dropWhile isJsWS = trimChars l :=
    dropWhile_of_prefix_dropWhile (trimChars_prefix_dropWhile l)
  show (((trimChars l).dropWhile isJsWS).reverse.dropWhile isJsWS).reverse =
    trimChars l
  rw [h1, trimChars, List.reverse_reverse, dropWhile_idem, ← trimChars]

theorem matchOrSep_suffix : ∀ {l rest : List Char},
    matchOrSep l = some rest → rest <:+ l := by
  intro l rest h
  match l with
  | [] => simp [matchOrSep] at h
  | c :: cs =>
    rw [matchOrSep] at h
    split at h
    case isFalse => exact absurd h (by simp)
    case isTrue hws =>
      split at h
      case h_2 => exact absurd h (by simp)
      case h_1 o r w t heq =>
        split at h
        case isFalse => exact absurd h (by simp)
        case isTrue hcond =>
          cases h
          have h1 : t.dropWhile isJsWS <:+ t := List.dropWhile_suffix _
          have h2 : t <:+ o :: r :: w :: t :=
            (List.suffix_cons w t).trans
              ((List.suffix_cons r (w :: t)).trans
                (List.suffix_cons o (r :: w :: t)))
          have h3 : (o :: r :: w :: t : List Char) <:+ cs := by
            rw [← heq]; exact List.dropWhile_suffix _
          exact h1.trans (h2.trans (h3.trans (List.suffix_cons c cs)))

theorem findSep_parts : ∀ {cs pre rest : List Char},
    findSep cs = some (pre, rest) → pre <+: cs ∧ rest <:+ cs := by
  intro cs
  induction cs with
  | nil => intro pre rest h; simp [findSep] at h
  | cons c cs ih =>
    intro pre rest h
    rw [findSep] at h
    cases hm : matchOrSep (c :: cs) with
    | some r =>
      rw [hm] at h
      cases h
      refine ⟨?_, matchOrSep_suffix hm⟩
      exact List.nil_prefix
    | none =>
      rw [hm] at h
      cases hf : findSep cs with
      | none => rw [hf] at h; exact absurd h (by simp)
      | some pr =>
        rw [hf] at h
        obtain ⟨p2, r2⟩ := pr
        cases h
        obtain ⟨hp, hr⟩ := ih hf
        exact ⟨(List.cons_prefix_cons).mpr ⟨rfl, hp⟩,
          hr.trans (List.suffix_cons c cs)⟩

theorem splitORAux_isInfix : ∀ (fuel : Nat) (cs seg : List Char),
    seg ∈ splitORAux fuel cs → seg <:+: cs := by
  intro fuel
  induction fuel with
  | zero =>
    intro cs seg h
    rw [splitORAux] at h
    simp at h
    subst h
    exact List.infix_refl _
  | succ fuel ih =>
    intro cs seg h
    rw [splitORAux] at h
    cases hf : findSep cs with
    | none =>
      rw [hf] at h
      simp at h
      subst h
      exact List.infix_refl _
    | some pr =>
      obtain ⟨pre, rest⟩ := pr
      rw [hf] at h
      rcases List.mem_cons.mp h with hseg | hseg
      · subst hseg
        exact (findSep_parts hf).1.isInfix
      · exact (ih rest seg hseg).trans (findSep_parts hf).2.isInfix

theorem splitOR_of_findSep_none {cs : List Char} (h : findSep cs = none) :
    splitOR cs = [cs] := by
  rw [splitOR]
  cases hl : cs.length with
  | zero => rfl
  | succ n => rw [splitORAux, h]

theorem dropWhile_all_true {p : Char → Bool} : ∀ {l : List Char},
    (∀ c ∈ l, p c = true) → l.dropWhile p = [] := by
  intro l
  induction l with
  | nil => intro _; rfl
  | cons c cs ih =>
    intro h
    rw [List.dropWhile_cons_of_pos (h c (List.mem_cons_self c cs))]
    exact ih (fun x hx => h x (List.mem_cons_of_mem c hx))

theorem matchOrSep_of_all_ws {l : List Char} (h : ∀ c ∈ l, isJsWS c = true) :
    matchOrSep l = none := by
  cases l with
  | nil => rfl
  | cons c cs =>
    rw [matchOrSep,
      dropWhile_all_true (fun x hx => h x (List.mem_cons_of_mem c hx))]
    rw [if_pos (h c (List.mem_cons_self c cs))]

theorem findSep_of_all_ws : ∀ {l : List Char},
    (∀ c ∈ l, isJsWS c = true) → findSep l = none := by
  intro l
  induction l with
  | nil => intro _; rfl
  | cons c cs ih =>
    intro h
    rw [findSep, matchOrSep_of_all_ws h,
      ih (fun x hx => h x (List.mem_cons_of_mem c hx))]

theorem trimChars_of_all_ws {l : List Char} (h : ∀ c ∈ l, isJsWS c = true) :
    trimChars l = [] := by
  rw [trimChars, dropWhile_all_true h]
  rfl

theorem parseLicenseExpression_of_findSep_none (s : String)
    (h : findSep s.toList = none) :
    parseLicenseExpression s =
      if (trimChars s.toList).isEmpty then []
      else [String.mk (trimChars s.toList)] := by
  rw [parseLicenseExpression, splitOR_of_findSep_none h]
  cases ht : trimChars s.toList with
  | nil =>
    have ht2 : trimChars s.data = [] := ht
    simp [ht, ht2]
  | cons a t =>
    have ht2 : trimChars s.data = a :: t := ht
    simp [ht, ht2]

/-- C4: the expression parser splits on the case-insensitive token `OR`
surrounded by whitespace, trims each segment, drops empty segments and
preserves each segment's original text (every candidate is a non-empty,
already-trimmed contiguous substring of the input); a string in which the
separator matches nowhere parses to the single-element list of its trimmed
self unless that trim is empty; an empty or whitespace-only string parses
to the empty list; and the concrete examples of the specification hold. -/
theorem c4_expression_parser_contract :
    parseLicenseExpression "MIT OR Apache-2.0" = ["MIT", "Apache-2.0"] ∧
    parseLicenseExpression "  " = [] ∧
    parseLicenseExpression "" = [] ∧
    parseLicenseExpression "ISC" = ["ISC"] ∧
    parseLicenseExpression "mit or isc" = ["mit", "isc"] ∧
    (∀ s : String, findSep s.toList = none →
       parseLicenseExpression s =
         if (trimChars s.toList).isEmpty then []
         else [String.mk (trimChars s.toList)]) ∧
    (∀ s : String, (∀ c ∈ s.toList, isJsWS c = true) →
       parseLicenseExpression s = []) ∧
    (∀ (s c : String), c ∈ parseLicenseExpression s →
       c ≠ "" ∧ c.toList <:+: s.toList ∧ trimChars c.toList = c.toList) := by
  refine ⟨by decide, by decide, by decide, by decide, by decide,
    parseLicenseExpression_of_findSep_none, ?_, ?_⟩
  · intro s h
    rw [parseLicenseExpression_of_findSep_none s (findSep_of_all_ws h),
      trimChars_of_all_ws h]
    rfl
  · intro s c hc
    rw [parseLicenseExpression] at hc
    obtain ⟨l, hl, hlc⟩ := List.mem_map.mp hc
    have hfil := List.mem_filter.mp hl
    obtain ⟨seg, hseg, hsegl⟩ := List.mem_map.mp hfil.1
    have hlen : 0 < l.length := by simpa using hfil.2
    subst hlc
    refine ⟨?_, ?_, ?_⟩
    · intro habs
      have hd : l = [] := by simpa using congrArg String.data habs
      rw [hd] at hlen
      simp at hlen
    · show l <:+: s.toList
      rw [← hsegl]
      exact (trimChars_isInfix seg).trans (splitORAux_isInfix _ _ _ hseg)
    · show trimChars l = l
      rw [← hsegl]
      exact trimChars_idem seg

theorem c4_expression_parser_contract_witness :
    parseLicenseExpression "BSD-3-Clause" =
      (if (trimChars ("BSD-3-Clause" : String).toList).isEmpty then []
       else [String.mk (trimChars ("BSD-3-Clause" : String).toList)]) ∧
    parseLicenseExpression "\t \t" = [] ∧
    ("Apache-2.0" ≠ "" ∧
      ("Apache-2.0" : String).toList <:+: ("MIT OR Apache-2.0" : String).toList ∧
      trimChars ("Apache-2.0" : String).toList =
        ("Apache-2.0" : String).toList) :=
  ⟨(c4_expression_parser_contract).2.2.2.2.2.1 "BSD-3-Clause" (by decide),
   (c4_expression_parser_contract).2.2.2.2.2.2.1 "\t \t" (by decide),
   (c4_expression_parser_contract).2.2.2.2.2.2.2 "MIT OR Apache-2.0"
     "Apache-2.0" (by decide)⟩

theorem globMatch_nil (cs : List Char) : globMatch [] cs = cs.isEmpty := rfl

theorem globMatch_cons (p : Char) (ps cs : List Char) :
    globMatch (p :: ps) cs =
      if p == '*' then (dotSuffixes cs).any (fun s => globMatch ps s)
      else
        match cs with
        | [] => false
        | c :: cs2 => (if p == '?' then dotChar c else p == c) && globMatch ps cs2 := rfl

theorem globMatch_star (ps cs : List Char) :
    globMatch ('*' :: ps) cs = (dotSuffixes cs).any (fun s => globMatch ps s) := by
  rw [globMatch_cons]
  exact if_pos rfl

theorem globMatch_cons_nil {p : Char} (hp : p ≠ '*') (ps : List Char) :
    globMatch (p :: ps) [] = false := by
  rw [globMatch_cons, if_neg (by simp [hp])]

theorem globMatch_cons_cons {p : Char} (hp : p ≠ '*') (c : Char)
    (ps cs : List Char) :
    globMatch (p :: ps) (c :: cs) =
      ((if p == '?' then dotChar c else p == c) && globMatch ps cs) := by
  rw [globMatch_cons, if_neg (by simp [hp])]

theorem mem_dotSuffixes_self (cs : List Char) : cs ∈ dotSuffixes cs := by
  cases cs with
  | nil => exact List.mem_singleton.mpr rfl
  | cons c t => exact List.mem_cons_self _ _

theorem mem_dotSuffixes_of_dot {c : Char} {cs s : List Char}
    (hd : dotChar c = true) (hs : s ∈ dotSuffixes cs) :
    s ∈ dotSuffixes (c :: cs) := by
  rw [dotSuffixes, if_pos hd]
  exact List.mem_cons_of_mem _ hs

theorem globSem_star_of_mem : ∀ {cs s ps : List Char},
    s ∈ dotSuffixes cs → GlobSem ps s → GlobSem ('*' :: ps) cs := by
  intro cs
  induction cs with
  | nil =>
    intro s ps hs hg
    rw [dotSuffixes] at hs
    rw [List.mem_singleton.mp hs] at hg
    exact GlobSem.starNil hg
  | cons c t ih =>
    intro s ps hs hg
    rw [dotSuffixes] at hs
    rcases List.mem_cons.mp hs with h | h
    · rw [h] at hg
      exact GlobSem.starNil hg
    · by_cases hd : dotChar c = true
      · rw [if_pos hd] at h
        exact GlobSem.starCons hd (ih h hg)
      · rw [if_neg hd] at h
        exact absurd h (List.not_mem_nil s)

theorem globSem_star_elim : ∀ {cs ps : List Char},
    GlobSem ('*' :: ps) cs → ∃ s, s ∈ dotSuffixes cs ∧ GlobSem ps s := by
  intro cs
  induction cs with
  | nil =>
    intro ps h
    cases h with
    | starNil h2 => exact ⟨[], mem_dotSuffixes_self [], h2⟩
  | cons c t ih =>
    intro ps h
    cases h with
    | lit h1 h2 h3 => exact absurd rfl h1
    | starNil h2 => exact ⟨c :: t, mem_dotSuffixes_self _, h2⟩
    | starCons hd h2 =>
      obtain ⟨s, hs, hg⟩ := ih h2
      exact ⟨s, mem_dotSuffixes_of_dot hd hs, hg⟩

theorem globMatch_iff_globSem : ∀ (ps cs : List Char),
    globMatch ps cs = true ↔ GlobSem ps cs := by
  intro ps
  induction ps with
  | nil =>
    intro cs
    rw [globMatch_nil, List.isEmpty_iff]
    constructor
    · intro h; rw [h]; exact GlobSem.nil
    · intro h; cases h; rfl
  | cons p ps ih =>
    intro cs
    by_cases hp : p = '*'
    · subst hp
      rw [globMatch_star, List.any_eq_true]
      constructor
      · rintro ⟨s, hs, hm⟩
        exact globSem_star_of_mem hs ((ih s).mp hm)
      · intro h
        obtain ⟨s, hs, hg⟩ := globSem_star_elim h
        exact ⟨s, hs, (ih s).mpr hg⟩
    · cases cs with
      | nil =>
        rw [globMatch_cons_nil hp]
        simp only [Bool.false_eq_true, false_iff]
        intro h
        cases h with
        | starNil h2 => exact hp rfl
      | cons c t =>
        rw [globMatch_cons_cons hp]
        by_cases hq : p = '?'
        · subst hq
          rw [if_pos (show (('?' : Char) == '?') = true from rfl),
            Bool.and_eq_true]
          constructor
          · rintro ⟨hd, hm⟩
            exact GlobSem.one hd ((ih t).mp hm)
          · intro h
            cases h with
            | lit h1 h2 h3 => exact absurd rfl h2
            | one hd h2 => exact ⟨hd, (ih t).mpr h2⟩
        · rw [if_neg (show ¬((p == '?') = true) by simp [hq]),
            Bool.and_eq_true]
          constructor
          · rintro ⟨hc, hm⟩
            have : p = c := by simpa using hc
            subst this
            exact GlobSem.lit hp hq ((ih t).mp hm)
          · intro h
            cases h with
            | lit h1 h2 h3 => exact ⟨by simp, (ih t).mpr h3⟩
            | one hd h2 => exact absurd rfl hq
            | starNil h2 => exact absurd rfl hp
            | starCons hd h2 => exact absurd rfl hp

theorem isIgnored_perm (name : String) (patterns1 patterns2 : List String)
    (h : List.Perm patterns1 patterns2) :
    isIgnored name patterns1 = isIgnored name patterns2 := by
  rw [Bool.eq_iff_iff]
  simp only [isIgnored, List.any_eq_true]
  constructor
  · rintro ⟨x, hx, hm⟩
    exact ⟨x, h.mem_iff.mp hx, hm⟩
  · rintro ⟨x, hx, hm⟩
    exact ⟨x, h.mem_iff.mpr hx, hm⟩

theorem nil_mem_dotSuffixes_of_all_dot : ∀ {cs : List Char},
    (∀ c ∈ cs, dotChar c = true) → [] ∈ dotSuffixes cs := by
  intro cs
  induction cs with
  | nil => intro _; exact List.mem_singleton.mpr rfl
  | cons c t ih =>
    intro h
    exact mem_dotSuffixes_of_dot (h c (List.mem_cons_self c t))
      (ih (fun x hx => h x (List.mem_cons_of_mem c hx)))

theorem c7_glob_matcher_counterexample :
    isIgnored "a\nb" ["*"] = false ∧ dotChar '\n' = false :=
  ⟨by decide, by decide⟩

/-- C7 (amended): for glob-fragment patterns (no characters with other
regular-expression meaning), `isIgnored` returns true iff the name fully
matches at least one pattern under the anchored, case-sensitive glob
semantics in which `*` matches zero or more characters none of which is a
line terminator and `?` matches exactly one non-line-terminator character;
the result is independent of the order of the patterns; the empty pattern
list ignores nothing; the pattern `*` matches every name that contains no
line terminator; and the specification's examples hold. -/
theorem c7_glob_matcher_amended :
    (∀ (name : String) (patterns : List String),
       patterns.all globSafePattern = true →
       (isIgnored name patterns = true ↔
         ∃ p ∈ patterns, GlobSem p.toList name.toList)) ∧
    (∀ (name : String) (patterns1 patterns2 : List String),
       patterns1.all globSafePattern = true →
       List.Perm patterns1 patterns2 →
       isIgnored name patterns1 = isIgnored name patterns2) ∧
    (∀ name : String, isIgnored name [] = false) ∧
    (∀ name : String, (∀ c ∈ name.toList, dotChar c = true) →
       isIgnored name ["*"] = true) ∧
    isIgnored "@types/node" ["@types/*"] = true ∧
    isIgnored "lodash" ["@types/*"] = false ∧
    isIgnored "Lodash" ["lodash"] = false := by
  refine ⟨?_, ?_, ?_, ?_, by decide, by decide, by decide⟩
  · intro name patterns _
    rw [isIgnored, List.any_eq_true]
    constructor
    · rintro ⟨p, hp, hm⟩
      exact ⟨p, hp, (globMatch_iff_globSem p.toList name.toList).mp hm⟩
    · rintro ⟨p, hp, hg⟩
      exact ⟨p, hp, (globMatch_iff_globSem p.toList name.toList).mpr hg⟩
  · intro name patterns1 patterns2 _ hperm
    exact isIgnored_perm name patterns1 patterns2 hperm
  · intro name
    rfl
  · intro name h
    have hmem : ([] : List Char) ∈ dotSuffixes name.toList :=
      nil_mem_dotSuffixes_of_all_dot h
    rw [isIgnored]
    simp only [List.any_cons, List.any_nil, Bool.or_false]
    show globMatch ['*'] name.toList = true
    rw [globMatch_star, List.any_eq_true]
    exact ⟨[], hmem, rfl⟩

theorem c7_glob_matcher_amended_witness :
    (isIgnored "@types/node" ["@types/*"] = true ↔
      ∃ p ∈ (["@types/*"] : List String),
        GlobSem p.toList ("@types/node" : String).toList) ∧
    isIgnored "react" ["react", "vue"] = isIgnored "react" ["vue", "react"] ∧
    isIgnored "foo" ["*"] = true :=
  ⟨c7_glob_matcher_amended.1 "@types/node" ["@types/*"] (by decide),
   c7_glob_matcher_amended.2.1 "react" ["react", "vue"] ["vue", "react"]
     (by decide) (List.Perm.swap "vue" "react" []),
   c7_glob_matcher_amended.2.2.2.1 "foo" (by decide)⟩

